import Mathlib

/-!
Verification development for the database-seeding pipeline of
`src/server/seed-database.ts` (ecommerce-chat-helper).

The TypeScript source is shallowly embedded as follows:

* The furniture-item data model (the zod `itemSchema`, lines 48-73) becomes
  the structures `ManufacturerAddress`, `Prices`, `Review`, `Item`.
  JavaScript numbers are modelled as `Int`: only their printed decimal form
  and their sign matter to any claim considered here.
* zod validation of a candidate value is embedded as total functions over an
  inductive `Json` type (`validateItem`, `validateItemArray`); the
  `StructuredOutputParser` over `z.array(itemSchema)` (line 79) validates a
  whole response array all-or-nothing, which `validateItemArray` mirrors.
  zod reports an aggregate of issues where we keep the first error; only the
  success/failure status is relevant to the claims.
* `createItemSummary` (lines 144-171) resolves synchronously with a value
  built by pure string concatenation, so it is embedded as a pure function.
* The batch loop of `processBatch` (lines 191-223) is embedded twice, from
  the same loop header `for (let i = 0; i < items.length; i += batchSize)`:
  `batchLoop` records the successive slices `items.slice(i, i + batchSize)`,
  and `processGo` records the observable events of the loop body (summary
  construction, the fallible embed-and-persist call
  `MongoDBAtlasVectorSearch.fromDocuments`, the `forceGC()` hint and the
  1000 ms delay).  Both are fuel-indexed, returning `none` when the fuel is
  exhausted before the loop condition fails, which makes the (non-)
  termination behaviour of the JavaScript loop itself a provable statement.
* `seedDatabase` (lines 227-272) is embedded as a trace-producing function
  over an `Env` of failure oracles: every external call (connect, ping,
  collection setup, index drop/create, deleteMany, the generation call, and
  each per-item embed-and-persist) may independently fail.  A thrown
  JavaScript exception is modelled by cutting the trace at the failing call
  and propagating `false` to the enclosing try/catch.
-/

/-- `manufacturer_address` sub-object of `itemSchema` (source lines 53-59). -/
structure ManufacturerAddress where
  street : String
  city : String
  state : String
  postal_code : String
  country : String
deriving DecidableEq

/-- `prices` sub-object of `itemSchema` (source lines 60-63). -/
structure Prices where
  full_price : Int
  sale_price : Int
deriving DecidableEq

/-- Element shape of `user_reviews` in `itemSchema` (source lines 65-71). -/
structure Review where
  review_date : String
  rating : Int
  comment : String
deriving DecidableEq

/-- The furniture `Item` record type inferred from `itemSchema`
(source lines 48-76). -/
structure Item where
  item_id : String
  item_name : String
  item_description : String
  brand : String
  manufacturer_address : ManufacturerAddress
  prices : Prices
  categories : List String
  user_reviews : List Review
  notes : String
deriving DecidableEq

/-- `createItemSummary` (source lines 144-171).  The source wraps the result
in an immediately-resolved Promise; the computation itself is synchronous
pure string building, embedded verbatim. -/
def createItemSummary (item : Item) : String :=
  let manufacturerDetails := "Made in " ++ item.manufacturer_address.country
  let categories := String.intercalate ", " item.categories
  let userReviews := String.intercalate " "
    (item.user_reviews.map fun review =>
      "Rated " ++ toString review.rating ++ " on " ++ review.review_date
        ++ ": " ++ review.comment)
  let basicInfo := item.item_name ++ " " ++ item.item_description
    ++ " from the brand " ++ item.brand
  let price := "At full price it costs: " ++ toString item.prices.full_price
    ++ " USD, On sale it costs: " ++ toString item.prices.sale_price ++ " USD"
  let notes := item.notes
  basicInfo ++ ". Manufacturer: " ++ manufacturerDetails ++ ". Categories: "
    ++ categories ++ ". Reviews: " ++ userReviews ++ ". Price: " ++ price
    ++ ". Notes: " ++ notes

/-- Spec 4.2: one review sentence, "Rated {rating} on {date}: {comment}". -/
def renderReview (r : Review) : String :=
  "Rated " ++ toString r.rating ++ " on " ++ r.review_date ++ ": " ++ r.comment

/-- Spec 4.2: basic info (name, description, brand). -/
def basicInfoPart (it : Item) : String :=
  it.item_name ++ " " ++ it.item_description ++ " from the brand " ++ it.brand

/-- Spec 4.2: manufacturer country. -/
def countryPart (it : Item) : String :=
  "Made in " ++ it.manufacturer_address.country

/-- Spec 4.2: comma-joined categories. -/
def categoriesPart (it : Item) : String :=
  String.intercalate ", " it.categories

/-- Spec 4.2: space-joined review sentences. -/
def reviewsPart (it : Item) : String :=
  String.intercalate " " (it.user_reviews.map renderReview)

/-- Spec 4.2: price sentence with currency label (full and sale price). -/
def pricePart (it : Item) : String :=
  "At full price it costs: " ++ toString it.prices.full_price
    ++ " USD, On sale it costs: " ++ toString it.prices.sale_price ++ " USD"

/-- The summary format as the spec describes it: the fixed concatenation
basic info, then manufacturer country, then joined categories, then joined
review sentences, then the price sentence, then notes. -/
def specSummary (it : Item) : String :=
  basicInfoPart it ++ ". Manufacturer: " ++ countryPart it ++ ". Categories: "
    ++ categoriesPart it ++ ". Reviews: " ++ reviewsPart it ++ ". Price: "
    ++ pricePart it ++ ". Notes: " ++ it.notes

/-- Untyped JSON-like values: the possible shapes of a candidate record
before zod validation. -/
inductive Json where
  | null
  | bool (b : Bool)
  | num (n : Int)
  | str (s : String)
  | arr (elems : List Json)
  | obj (fields : List (String × Json))

/-- Object field lookup (JavaScript property access on a parsed object). -/
def getField (fields : List (String × Json)) (key : String) : Option Json :=
  match fields.find? (fun p => p.1 == key) with
  | some p => some p.2
  | none => none

/-- `z.string()`: accepts exactly string values. -/
def asString : Json → Except String String
  | .str s => Except.ok s
  | _ => Except.error "Expected string"

/-- `z.number()`: accepts exactly numeric values.  Note: no sign check, the
source schema (lines 61-62) uses plain `z.number()` for both prices. -/
def asNumber : Json → Except String Int
  | .num n => Except.ok n
  | _ => Except.error "Expected number"

/-- A required object field: missing keys are a validation error
(zod `Required`), present keys are validated by `f`. -/
def reqField (fields : List (String × Json)) (key : String)
    (f : Json → Except String α) : Except String α :=
  match getField fields key with
  | some v => f v
  | none => Except.error ("Required: " ++ key)

/-- Elementwise validation of a `z.array(...)`: every element must validate
or the whole array is rejected. -/
def mapValidate (f : Json → Except String α) : List Json → Except String (List α)
  | [] => Except.ok []
  | j :: js => do
    let a ← f j
    let as ← mapValidate f js
    Except.ok (a :: as)

/-- `z.array(...)`: accepts exactly array values, validated elementwise. -/
def asArray (f : Json → Except String α) : Json → Except String (List α)
  | .arr xs => mapValidate f xs
  | _ => Except.error "Expected array"

/-- Validation of the `manufacturer_address` sub-object (source lines 53-59). -/
def validateAddress : Json → Except String ManufacturerAddress
  | .obj fs => do
    let street ← reqField fs "street" asString
    let city ← reqField fs "city" asString
    let st ← reqField fs "state" asString
    let pc ← reqField fs "postal_code" asString
    let country ← reqField fs "country" asString
    Except.ok ⟨street, city, st, pc, country⟩
  | _ => Except.error "Expected object"

/-- Validation of the `prices` sub-object (source lines 60-63): both fields
must be numbers; no constraint on their sign. -/
def validatePrices : Json → Except String Prices
  | .obj fs => do
    let fp ← reqField fs "full_price" asNumber
    let sp ← reqField fs "sale_price" asNumber
    Except.ok ⟨fp, sp⟩
  | _ => Except.error "Expected object"

/-- Validation of one `user_reviews` element (source lines 66-70). -/
def validateReview : Json → Except String Review
  | .obj fs => do
    let d ← reqField fs "review_date" asString
    let r ← reqField fs "rating" asNumber
    let c ← reqField fs "comment" asString
    Except.ok ⟨d, r, c⟩
  | _ => Except.error "Expected object"

/-- `itemSchema` validation (source lines 48-73): all fields required and
type-checked; extra keys are ignored (zod strips them). -/
def validateItem : Json → Except String Item
  | .obj fs => do
    let iid ← reqField fs "item_id" asString
    let iname ← reqField fs "item_name" asString
    let idesc ← reqField fs "item_description" asString
    let brand ← reqField fs "brand" asString
    let addr ← reqField fs "manufacturer_address" validateAddress
    let prices ← reqField fs "prices" validatePrices
    let cats ← reqField fs "categories" (asArray asString)
    let reviews ← reqField fs "user_reviews" (asArray validateReview)
    let notes ← reqField fs "notes" asString
    Except.ok ⟨iid, iname, idesc, brand, addr, prices, cats, reviews, notes⟩
  | _ => Except.error "Expected object"

/-- The response parser `StructuredOutputParser.fromZodSchema(z.array(itemSchema))`
(source line 79): the whole generation response must be an array whose every
element validates as an `Item`. -/
def validateItemArray : Json → Except String (List Item) :=
  asArray validateItem

/-- Success test for validation results. -/
def isOkE : Except ε α → Bool
  | .ok _ => true
  | .error _ => false

/-- Canonical JSON rendering of a `ManufacturerAddress`. -/
def addressToJson (a : ManufacturerAddress) : Json :=
  Json.obj [("street", Json.str a.street), ("city", Json.str a.city),
    ("state", Json.str a.state), ("postal_code", Json.str a.postal_code),
    ("country", Json.str a.country)]

/-- Canonical JSON rendering of a `Review`. -/
def reviewToJson (r : Review) : Json :=
  Json.obj [("review_date", Json.str r.review_date),
    ("rating", Json.num r.rating), ("comment", Json.str r.comment)]

/-- Canonical JSON rendering of an `Item`: the well-shaped candidate a
generation response would contain for this item. -/
def itemToJson (it : Item) : Json :=
  Json.obj [("item_id", Json.str it.item_id),
    ("item_name", Json.str it.item_name),
    ("item_description", Json.str it.item_description),
    ("brand", Json.str it.brand),
    ("manufacturer_address", addressToJson it.manufacturer_address),
    ("prices", Json.obj [("full_price", Json.num it.prices.full_price),
      ("sale_price", Json.num it.prices.sale_price)]),
    ("categories", Json.arr (it.categories.map Json.str)),
    ("user_reviews", Json.arr (it.user_reviews.map reviewToJson)),
    ("notes", Json.str it.notes)]

/-- The contiguous-slice decomposition of a list into chunks of size `B`
(last chunk possibly shorter).  Reference decomposition the loop of
`processBatch` is proved equal to; total for every `B`. -/
def chunkList (B : Nat) : List α → List (List α)
  | [] => []
  | x :: xs => (x :: xs.take (B - 1)) :: chunkList B (xs.drop (B - 1))
termination_by l => l.length
decreasing_by simp only [List.length_drop, List.length_cons]; omega

/-- The loop header of `processBatch` (source line 191),
`for (let i = 0; i < items.length; i += batchSize)`, recording the slice
`items.slice(i, i + batchSize)` taken by each iteration (source line 192).
Fuel-indexed: one unit of fuel per loop iteration, `none` when the fuel runs
out while the loop condition still holds — so a run of the JavaScript loop
terminates exactly when some finite fuel yields `some`. -/
def batchLoop (items : List α) (B : Nat) : Nat → Nat → Option (List (List α))
  | i, 0 => if i < items.length then none else some []
  | i, fuel + 1 =>
    if i < items.length then
      match batchLoop items B (i + B) fuel with
      | none => none
      | some bs => some ((items.drop i).take B :: bs)
    else some []

/-- Observable events of one `seedDatabase` run.  Item events carry the
item's position in processing order (0-based). -/
inductive Ev where
  | connect
  | connectFail
  | ping
  | pingFail
  | setup
  | setupFail
  | dropIdx
  | createIdx
  | logIndexError
  | clear
  | clearFail
  | generate
  | generateFail
  | summarize (j : Nat)
  | persist (j : Nat)
  | persistFail (j : Nat)
  | gc
  | sleep (ms : Nat)
  | logDone
  | logError
  | close
deriving DecidableEq

/-- The inner loop `for (const item of batch)` of `processBatch`
(source lines 196-216), starting at global position `i`: each item is first
summarized (line 197, infallible), then embedded and persisted in one
`MongoDBAtlasVectorSearch.fromDocuments` call (lines 204-213) whose outcome
the oracle `ok` decides; a rejection throws, aborting the loop with the
events so far. -/
def processItemsAux (ok : Nat → Bool) : Nat → List Item → List Ev × Bool
  | _, [] => ([], true)
  | i, _ :: rest =>
    if ok i then
      let p := processItemsAux ok (i + 1) rest
      (Ev.summarize i :: Ev.persist i :: p.1, p.2)
    else ([Ev.summarize i, Ev.persistFail i], false)

/-- The outer batch loop of `processBatch` (source lines 191-223): per
iteration, process the slice's items (lines 196-216); if they all succeed,
run `forceGC()` (line 219) and the fixed 1000 ms delay (line 222) and
continue; a thrown item failure propagates immediately, skipping the gc
hint and the delay.  Fuel-indexed like `batchLoop`. -/
def processGo (ok : Nat → Bool) (items : List Item) (B : Nat) :
    Nat → Nat → Option (List Ev × Bool)
  | i, 0 => if i < items.length then none else some ([], true)
  | i, fuel + 1 =>
    if i < items.length then
      match processItemsAux ok i ((items.drop i).take B) with
      | (btr, false) => some (btr, false)
      | (btr, true) =>
        match processGo ok items B (i + B) fuel with
        | none => none
        | some q => some (btr ++ Ev.gc :: Ev.sleep 1000 :: q.1, q.2)
    else some ([], true)

/-- Failure oracles for one `seedDatabase` run: every external call may
independently fail.  `genResponse` is the generation response as parsed
JSON; `llmOk = false` models the generation call itself failing before any
response is produced. -/
structure Env where
  connectOk : Bool
  pingOk : Bool
  setupOk : Bool
  indexDropOk : Bool
  indexCreateOk : Bool
  clearOk : Bool
  llmOk : Bool
  genResponse : Json
  persistOk : Nat → Bool

/-- `createVectorSearchIndex` (source lines 100-126): `dropIndexes` then
`createSearchIndex`, the whole body wrapped in try/catch whose handler only
logs — so this step never throws to its caller. -/
def createVectorSearchIndex (env : Env) : List Ev :=
  if env.indexDropOk then
    if env.indexCreateOk then [Ev.dropIdx, Ev.createIdx]
    else [Ev.dropIdx, Ev.logIndexError]
  else [Ev.logIndexError]

/-- The try-block of `seedDatabase` (source lines 228-264): connect, ping,
`setupDatabaseAndCollection` (its two store calls merged into one fallible
step), `createVectorSearchIndex`, `deleteMany` (clear), the generation call
with all-or-nothing parsing, then `processBatch` with batch size 3, then
the completion log.  Returns the events produced and whether the block ran
to completion (`false` = an exception reached the catch).  `processGo` is
run with `items.length` fuel, which `go_total` proves sufficient. -/
def seedTryBody (env : Env) : List Ev × Bool :=
  if env.connectOk then
    if env.pingOk then
      if env.setupOk then
        let pre := [Ev.connect, Ev.ping, Ev.setup] ++ createVectorSearchIndex env
        if env.clearOk then
          if env.llmOk then
            match validateItemArray env.genResponse with
            | Except.ok items =>
              let p := (processGo env.persistOk items 3 0 items.length).getD ([], false)
              (pre ++ [Ev.clear, Ev.generate] ++ p.1
                ++ (if p.2 then [Ev.logDone] else []), p.2)
            | Except.error _ => (pre ++ [Ev.clear, Ev.generateFail], false)
          else (pre ++ [Ev.clear, Ev.generateFail], false)
        else (pre ++ [Ev.clearFail], false)
      else ([Ev.connect, Ev.ping, Ev.setupFail], false)
    else ([Ev.connect, Ev.pingFail], false)
  else ([Ev.connectFail], false)

/-- `seedDatabase` (source lines 227-272): the try-block, then the catch
handler logging any failure (without re-raising), then the finally-block
closing the client. -/
def seedDatabase (env : Env) : List Ev :=
  (seedTryBody env).1
    ++ (if (seedTryBody env).2 then [] else [Ev.logError]) ++ [Ev.close]

/-- Effect of one event on the stored-document collection, identified by the
positions of the items persisted into it: `deleteMany` empties it, a
successful per-item write appends, nothing else touches it. -/
def storeStep (docs : List Nat) : Ev → List Nat
  | Ev.clear => []
  | Ev.persist j => docs ++ [j]
  | _ => docs

/-- Collection contents after a trace, starting from `init` (the residue of
earlier runs). -/
def runStore (init : List Nat) (tr : List Ev) : List Nat :=
  tr.foldl storeStep init

/-- Positions of successfully persisted items, in trace order. -/
def persists (tr : List Ev) : List Nat :=
  tr.filterMap fun e => match e with | Ev.persist j => some j | _ => none

/-- Positions of summarized items, in trace order. -/
def summs (tr : List Ev) : List Nat :=
  tr.filterMap fun e => match e with | Ev.summarize j => some j | _ => none

/-- Positions of failed embed-and-persist attempts, in trace order. -/
def persistFails (tr : List Ev) : List Nat :=
  tr.filterMap fun e => match e with | Ev.persistFail j => some j | _ => none

/-- Events the inner item loop can produce. -/
def isItemEv : Ev → Bool
  | Ev.summarize _ => true
  | Ev.persist _ => true
  | Ev.persistFail _ => true
  | _ => false

/-- Events the whole batch loop can produce. -/
def isBatchEv : Ev → Bool
  | Ev.summarize _ => true
  | Ev.persist _ => true
  | Ev.persistFail _ => true
  | Ev.gc => true
  | Ev.sleep _ => true
  | _ => false

/-- A small concrete item for witnesses. -/
def demoItem : Item :=
  ⟨"id1", "Chair", "A chair", "Acme", ⟨"1 St", "Metropolis", "CA", "90001", "USA"⟩,
    ⟨100, 80⟩, ["seating"], [⟨"2024-01-01", 5, "good"⟩], "none"⟩

/-- A second concrete item for witnesses. -/
def demoItem2 : Item :=
  ⟨"id2", "Table", "A table", "Acme", ⟨"2 St", "Metropolis", "CA", "90001", "USA"⟩,
    ⟨200, 150⟩, ["tables"], [], "none"⟩

/-- A well-shaped candidate whose prices are negative numbers. -/
def negPriceJson : Json :=
  Json.obj [("item_id", Json.str "id9"),
    ("item_name", Json.str "Desk"),
    ("item_description", Json.str "A desk"),
    ("brand", Json.str "Acme"),
    ("manufacturer_address", Json.obj [("street", Json.str "1 St"),
      ("city", Json.str "Metropolis"), ("state", Json.str "CA"),
      ("postal_code", Json.str "90001"), ("country", Json.str "USA")]),
    ("prices", Json.obj [("full_price", Json.num (-50)),
      ("sale_price", Json.num (-80))]),
    ("categories", Json.arr [Json.str "desks"]),
    ("user_reviews", Json.arr []),
    ("notes", Json.str "priced below zero")]

/-- The `Item` the negative-price candidate validates to. -/
def negPriceItem : Item :=
  ⟨"id9", "Desk", "A desk", "Acme", ⟨"1 St", "Metropolis", "CA", "90001", "USA"⟩,
    ⟨-50, -80⟩, ["desks"], [], "priced below zero"⟩

/-- An all-success environment whose generation response is an empty array. -/
def demoEnv : Env :=
  ⟨true, true, true, true, true, true, true, Json.arr [], fun _ => true⟩

/-- An environment whose second item's embed-and-persist call fails. -/
def demoEnvFail : Env :=
  ⟨true, true, true, true, true, true, true,
    Json.arr [itemToJson demoItem, itemToJson demoItem2], fun j => j == 0⟩

/-- An environment where creating the vector search index fails. -/
def demoEnvIdx : Env :=
  ⟨true, true, true, true, false, true, true,
    Json.arr [itemToJson demoItem], fun _ => true⟩

/-- C3: `createItemSummary` is deterministic and produces exactly the fixed
concatenation: basic info (name, description, brand), then manufacturer
country, then comma-joined categories, then space-joined review sentences
rendered as "Rated {rating} on {date}: {comment}", then the price sentence
with currency label, then notes.  Determinism is the first conjunct (the
embedded function is pure: the source computes the summary synchronously
from its argument alone); the exact format is the second. -/
theorem c3_summary_format (it : Item) :
    createItemSummary it = createItemSummary it ∧
    createItemSummary it = specSummary it :=
  ⟨rfl, rfl⟩

/-- Validating the canonical JSON rendering of string list succeeds. -/
theorem mapValidate_str (l : List String) :
    mapValidate asString (l.map Json.str) = Except.ok l := by
  induction l with
  | nil => rfl
  | cons x xs ih => simp [mapValidate, asString, ih, Bind.bind, Except.bind]

/-- Validating the canonical JSON rendering of a review list succeeds. -/
theorem mapValidate_review (l : List Review) :
    mapValidate validateReview (l.map reviewToJson) = Except.ok l := by
  induction l with
  | nil => rfl
  | cons x xs ih =>
    simp [mapValidate, validateReview, reviewToJson, reqField, getField,
      asString, asNumber, ih, Bind.bind, Except.bind]

/-- C6 (amended): `itemSchema` validation accepts every well-shaped
candidate whose prices are numbers, whatever their sign — the schema checks
only numberhood of `full_price` and `sale_price` (plain `z.number()`,
source lines 61-62), so a negative-price candidate validates successfully
and can go on to produce a Stored Document. -/
theorem c6_validation_ignores_price_sign (it : Item) :
    validateItem (itemToJson it) = Except.ok it := by
  simp [validateItem, itemToJson, reqField, getField, asString, asNumber,
    asArray, validateAddress, validatePrices, addressToJson,
    mapValidate_str, mapValidate_review, Bind.bind, Except.bind]

/-- C6 counterexample: a concrete well-shaped candidate whose `full_price`
is -50 and `sale_price` is -80 is not rejected by schema validation — it
validates to an `Item`, contradicting the claim that negative-price
candidates always yield a validation error. -/
theorem c6_counterexample :
    validateItem negPriceJson = Except.ok negPriceItem := by
  rfl

/-- Elementwise validation succeeds only when every element succeeds, and
the successful results are the elementwise validations in order. -/
theorem mapValidate_ok_forall₂ (f : Json → Except String α) :
    ∀ (js : List Json) (as : List α), mapValidate f js = Except.ok as →
      List.Forall₂ (fun j a => f j = Except.ok a) js as := by
  intro js
  induction js with
  | nil =>
    intro as h
    simp only [mapValidate] at h
    cases h
    exact List.Forall₂.nil
  | cons j rest ih =>
    intro as h
    simp only [mapValidate, Bind.bind, Except.bind] at h
    cases hj : f j with
    | error e => rw [hj] at h; cases h
    | ok a =>
      rw [hj] at h
      cases hrest : mapValidate f rest with
      | error e => rw [hrest] at h; cases h
      | ok bs =>
        rw [hrest] at h
        cases h
        exact List.Forall₂.cons hj (ih bs hrest)

/-- Any left element of a `Forall₂` has a related right element. -/
theorem forall₂_exists_right {R : α → β → Prop} :
    ∀ {l1 : List α} {l2 : List β}, List.Forall₂ R l1 l2 →
      ∀ a ∈ l1, ∃ b ∈ l2, R a b := by
  intro l1 l2 h
  induction h with
  | nil => intro a ha; cases ha
  | cons hab _ ih =>
    intro a ha
    rcases List.mem_cons.mp ha with rfl | ha
    · exact ⟨_, List.mem_cons_self _ _, hab⟩
    · obtain ⟨b, hb, hrb⟩ := ih a ha
      exact ⟨b, List.mem_cons_of_mem _ hb, hrb⟩

/-- C7: generation-response validation is all-or-nothing.  If any element of
the response array fails the `Item` schema, the whole parse fails (first
conjunct); and whenever the parse succeeds, the returned list consists
exactly of the successful elementwise validations, so it never contains a
record that failed validation (second conjunct). -/
theorem c7_all_or_nothing (js : List Json) :
    ((∃ j ∈ js, isOkE (validateItem j) = false) →
      isOkE (validateItemArray (Json.arr js)) = false) ∧
    (∀ items, validateItemArray (Json.arr js) = Except.ok items →
      List.Forall₂ (fun j it => validateItem j = Except.ok it) js items) := by
  constructor
  · rintro ⟨j, hj, hbad⟩
    cases harr : validateItemArray (Json.arr js) with
    | error e => rfl
    | ok items =>
      exfalso
      have hall := mapValidate_ok_forall₂ validateItem js items harr
      obtain ⟨it, -, hit⟩ := forall₂_exists_right hall j hj
      rw [hit] at hbad
      simp [isOkE] at hbad
  · intro items h
    exact mapValidate_ok_forall₂ validateItem js items h

/-- C7 witness: a response containing one malformed element (`null` is not
an object) makes the whole parse fail. -/
theorem c7_witness :
    isOkE (validateItemArray (Json.arr [itemToJson demoItem, Json.null])) = false :=
  (c7_all_or_nothing [itemToJson demoItem, Json.null]).1
    ⟨Json.null, by simp, by rfl⟩

/-- Ceiling-division recurrence: taking one chunk of size `B` off a list of
length `L + 1` leaves `⌈(L+1)/B⌉ = ⌈(L - (B-1))/B⌉ + 1` chunks, with the
ceiling `⌈m/B⌉` written `(m + B - 1) / B`. -/
theorem ceil_succ (L B : Nat) (hB : 1 ≤ B) :
    (L + 1 + B - 1) / B = (L - (B - 1) + B - 1) / B + 1 := by
  rcases Nat.lt_or_ge L B with h | h
  · have h1 : L + 1 + B - 1 = L + B := by omega
    have h2 : L - (B - 1) + B - 1 = B - 1 := by omega
    have h3 : (L + B) / B = L / B + 1 := Nat.add_div_right _ (by omega)
    have h4 : L / B = 0 := Nat.div_eq_of_lt h
    have h5 : (B - 1) / B = 0 := Nat.div_eq_of_lt (by omega)
    rw [h1, h2, h3, h4, h5]
  · have h1 : L + 1 + B - 1 = L - B + B + B := by omega
    have h2 : L - (B - 1) + B - 1 = L - B + B := by omega
    rw [h1, h2, Nat.add_div_right _ (by omega), Nat.add_div_right _ (by omega)]

/-- `chunkList` on a nonempty list with positive chunk size takes the first
`B` elements and recurses on the rest. -/
theorem chunkList_cons_eq (B : Nat) (hB : 1 ≤ B) (l : List α) (hl : l ≠ []) :
    chunkList B l = l.take B :: chunkList B (l.drop B) := by
  obtain ⟨B', rfl⟩ : ∃ B', B = B' + 1 := ⟨B - 1, by omega⟩
  cases l with
  | nil => exact absurd rfl hl
  | cons x xs => simp [chunkList, List.take_succ_cons, List.drop_succ_cons]

/-- Chunks concatenate back to the original list. -/
theorem chunkList_flatten (B : Nat) :
    ∀ (n : Nat) (l : List α), l.length ≤ n → (chunkList B l).flatten = l := by
  intro n
  induction n with
  | zero =>
    intro l hl
    have hnil : l = [] := List.length_eq_zero.mp (by omega)
    subst hnil
    simp [chunkList]
  | succ n ih =>
    intro l hl
    cases l with
    | nil => simp [chunkList]
    | cons x xs =>
      simp only [List.length_cons] at hl
      simp only [chunkList, List.flatten_cons, List.cons_append]
      rw [ih (xs.drop (B - 1)) (by simp only [List.length_drop]; omega)]
      simp [List.take_append_drop]

/-- A chunk list is empty exactly for the empty list. -/
theorem chunkList_eq_nil_iff (B : Nat) (l : List α) :
    chunkList B l = [] ↔ l = [] := by
  cases l with
  | nil => simp [chunkList]
  | cons x xs => simp [chunkList]

/-- The number of chunks is the ceiling of `length / B`. -/
theorem chunkList_length (B : Nat) (hB : 1 ≤ B) :
    ∀ (n : Nat) (l : List α), l.length ≤ n →
      (chunkList B l).length = (l.length + B - 1) / B := by
  intro n
  induction n with
  | zero =>
    intro l hl
    have hnil : l = [] := List.length_eq_zero.mp (by omega)
    subst hnil
    have h5 : (B - 1) / B = 0 := Nat.div_eq_of_lt (by omega)
    simp [chunkList, h5]
  | succ n ih =>
    intro l hl
    cases l with
    | nil =>
      have h5 : (B - 1) / B = 0 := Nat.div_eq_of_lt (by omega)
      simp [chunkList, h5]
    | cons x xs =>
      simp only [List.length_cons] at hl
      simp only [chunkList, List.length_cons]
      rw [ih (xs.drop (B - 1)) (by simp only [List.length_drop]; omega)]
      simp only [List.length_drop]
      exact (ceil_succ xs.length B hB).symm

/-- Every chunk except possibly the last has exactly `B` elements. -/
theorem chunkList_dropLast (B : Nat) (hB : 1 ≤ B) :
    ∀ (n : Nat) (l : List α), l.length ≤ n →
      ∀ b ∈ (chunkList B l).dropLast, b.length = B := by
  intro n
  induction n with
  | zero =>
    intro l hl b hb
    have hnil : l = [] := List.length_eq_zero.mp (by omega)
    subst hnil
    simp [chunkList] at hb
  | succ n ih =>
    intro l hl b hb
    cases l with
    | nil => simp [chunkList] at hb
    | cons x xs =>
      simp only [List.length_cons] at hl
      simp only [chunkList] at hb
      by_cases hrest : chunkList B (xs.drop (B - 1)) = []
      · rw [hrest] at hb
        simp at hb
      · rw [List.dropLast_cons_of_ne_nil hrest] at hb
        rcases List.mem_cons.mp hb with rfl | hb
        · have hne : xs.drop (B - 1) ≠ [] := by
            intro h
            rw [h] at hrest
            simp [chunkList] at hrest
          have hlen : B - 1 < xs.length := by
            by_contra hc
            exact hne (List.drop_eq_nil_of_le (by omega))
          simp only [List.length_cons, List.length_take]
          omega
        · exact ih (xs.drop (B - 1)) (by simp only [List.length_drop]; omega) b hb

/-- Every chunk is nonempty and no longer than `B`. -/
theorem chunkList_mem_length (B : Nat) (hB : 1 ≤ B) :
    ∀ (n : Nat) (l : List α), l.length ≤ n →
      ∀ b ∈ chunkList B l, 1 ≤ b.length ∧ b.length ≤ B := by
  intro n
  induction n with
  | zero =>
    intro l hl b hb
    have hnil : l = [] := List.length_eq_zero.mp (by omega)
    subst hnil
    simp [chunkList] at hb
  | succ n ih =>
    intro l hl b hb
    cases l with
    | nil => simp [chunkList] at hb
    | cons x xs =>
      simp only [List.length_cons] at hl
      simp only [chunkList] at hb
      rcases List.mem_cons.mp hb with rfl | hb
      · simp only [List.length_cons, List.length_take]
        omega
      · exact ih (xs.drop (B - 1)) (by simp only [List.length_drop]; omega) b hb

/-- With positive batch size and fuel at least the number of remaining
items, the loop of `processBatch` yields exactly the chunk decomposition of
the unprocessed suffix. -/
theorem batchLoop_eq_chunkList (items : List α) (B : Nat) (hB : 1 ≤ B) :
    ∀ (fuel i : Nat), items.length - i ≤ fuel →
      batchLoop items B i fuel = some (chunkList B (items.drop i)) := by
  intro fuel
  induction fuel with
  | zero =>
    intro i hi
    have hge : items.length ≤ i := by omega
    rw [List.drop_eq_nil_of_le hge]
    simp [batchLoop, chunkList]
    omega
  | succ fuel ih =>
    intro i hi
    by_cases hlt : i < items.length
    · have hrec := ih (i + B) (by omega)
      simp only [batchLoop, if_pos hlt, hrec]
      have hdrop : items.drop (i + B) = (items.drop i).drop B := by
        rw [List.drop_drop, Nat.add_comm]
      have hne : items.drop i ≠ [] :=
        List.length_pos.mp (by simp only [List.length_drop]; omega)
      rw [hdrop, ← chunkList_cons_eq B hB (items.drop i) hne]
    · rw [List.drop_eq_nil_of_le (by omega)]
      simp [batchLoop, hlt, chunkList]

/-- C1: for every record list and every batch size `B ≥ 1`, the loop of
`processBatch` partitions the list into `⌈L/B⌉` batches — each batch
nonempty and of size at most `B`, every batch before the last of size
exactly `B` — and the batches concatenate in order back to the original
list. -/
theorem c1_batch_partition (items : List Item) (B : Nat) (hB : 1 ≤ B) :
    ∃ bs, batchLoop items B 0 items.length = some bs ∧
      bs.length = (items.length + B - 1) / B ∧
      bs.flatten = items ∧
      (∀ b ∈ bs.dropLast, b.length = B) ∧
      (∀ b ∈ bs, 1 ≤ b.length ∧ b.length ≤ B) := by
  refine ⟨chunkList B items, ?_, ?_, ?_, ?_, ?_⟩
  · have h := batchLoop_eq_chunkList items B hB items.length 0 (by omega)
    simpa using h
  · simpa using chunkList_length B hB items.length items le_rfl
  · exact chunkList_flatten B items.length items le_rfl
  · exact chunkList_dropLast B hB items.length items le_rfl
  · exact chunkList_mem_length B hB items.length items le_rfl

/-- C1 witness: seven records with batch size 3 yield `⌈7/3⌉ = 3` batches,
all of size 3 except the last, concatenating back to the original list. -/
theorem c1_witness :
    ∃ bs, batchLoop [demoItem, demoItem, demoItem, demoItem, demoItem,
        demoItem, demoItem2] 3 0
        (List.length [demoItem, demoItem, demoItem, demoItem, demoItem,
          demoItem, demoItem2]) = some bs ∧
      bs.length = (List.length [demoItem, demoItem, demoItem, demoItem,
        demoItem, demoItem, demoItem2] + 3 - 1) / 3 ∧
      bs.flatten = [demoItem, demoItem, demoItem, demoItem, demoItem,
        demoItem, demoItem2] ∧
      (∀ b ∈ bs.dropLast, b.length = 3) ∧
      (∀ b ∈ bs, 1 ≤ b.length ∧ b.length ≤ 3) :=
  c1_batch_partition _ 3 (by omega)

/-- With batch size 0 the loop index never advances, so no amount of fuel
completes the loop on a nonempty list. -/
theorem batchLoop_zero_none (items : List α) (h : 0 < items.length) :
    ∀ fuel, batchLoop items 0 0 fuel = none := by
  intro fuel
  induction fuel with
  | zero => simp [batchLoop, h]
  | succ fuel ih => simp [batchLoop, h, ih]

/-- C10: with `batchSize ≥ 1` the loop of `processBatch` terminates on every
finite item list (fuel equal to the list length suffices, since the index
strictly increases each iteration); the precondition is necessary, because
with `batchSize = 0` on a nonempty list the index never advances and no
finite fuel completes the loop. -/
theorem c10_termination (items : List Item) (B : Nat) :
    (1 ≤ B → (batchLoop items B 0 items.length).isSome = true) ∧
    (0 < items.length → ∀ fuel, batchLoop items 0 0 fuel = none) := by
  constructor
  · intro hB
    rw [batchLoop_eq_chunkList items B hB items.length 0 (by omega)]
    rfl
  · intro h fuel
    exact batchLoop_zero_none items h fuel

/-- C10 witness: the loop terminates on two records with batch size 3, and
diverges (here: any fuel up to 5 fails) on the same records with size 0. -/
theorem c10_witness :
    (batchLoop [demoItem, demoItem2] 3 0
      (List.length [demoItem, demoItem2])).isSome = true ∧
    batchLoop [demoItem, demoItem2] 0 0 5 = none :=
  ⟨(c10_termination [demoItem, demoItem2] 3).1 (by omega),
    (c10_termination [demoItem, demoItem2] 3).2 (by decide) 5⟩

/-- Number of occurrences of an event in a trace. -/
def countEv (e : Ev) (tr : List Ev) : Nat :=
  (tr.filter fun x => x == e).length

@[simp]
theorem countEv_nil (e : Ev) : countEv e [] = 0 := rfl

theorem countEv_cons (e x : Ev) (tr : List Ev) :
    countEv e (x :: tr) = countEv e tr + if x = e then 1 else 0 := by
  by_cases h : x = e <;> simp [countEv, List.filter_cons, h]

@[simp]
theorem countEv_append (e : Ev) (a b : List Ev) :
    countEv e (a ++ b) = countEv e a + countEv e b := by
  simp [countEv, List.filter_append]

theorem countEv_eq_zero (e : Ev) (tr : List Ev) (h : e ∉ tr) :
    countEv e tr = 0 := by
  induction tr with
  | nil => rfl
  | cons x rest ih =>
    rw [countEv_cons, ih (fun hm => h (List.mem_cons_of_mem _ hm)),
      if_neg (fun hx : x = e => h (hx ▸ List.mem_cons_self _ _))]

@[simp]
theorem persists_nil : persists [] = [] := rfl

@[simp]
theorem summs_nil : summs [] = [] := rfl

@[simp]
theorem persistFails_nil : persistFails [] = [] := rfl

@[simp]
theorem persists_append (a b : List Ev) :
    persists (a ++ b) = persists a ++ persists b := by
  simp [persists, List.filterMap_append]

@[simp]
theorem summs_append (a b : List Ev) :
    summs (a ++ b) = summs a ++ summs b := by
  simp [summs, List.filterMap_append]

@[simp]
theorem persistFails_append (a b : List Ev) :
    persistFails (a ++ b) = persistFails a ++ persistFails b := by
  simp [persistFails, List.filterMap_append]

@[simp]
theorem persists_cons_summarize (j : Nat) (tr : List Ev) :
    persists (Ev.summarize j :: tr) = persists tr := rfl

@[simp]
theorem persists_cons_persist (j : Nat) (tr : List Ev) :
    persists (Ev.persist j :: tr) = j :: persists tr := rfl

@[simp]
theorem persists_cons_persistFail (j : Nat) (tr : List Ev) :
    persists (Ev.persistFail j :: tr) = persists tr := rfl

@[simp]
theorem persists_cons_gc (tr : List Ev) :
    persists (Ev.gc :: tr) = persists tr := rfl

@[simp]
theorem persists_cons_sleep (ms : Nat) (tr : List Ev) :
    persists (Ev.sleep ms :: tr) = persists tr := rfl

@[simp]
theorem summs_cons_summarize (j : Nat) (tr : List Ev) :
    summs (Ev.summarize j :: tr) = j :: summs tr := rfl

@[simp]
theorem summs_cons_persist (j : Nat) (tr : List Ev) :
    summs (Ev.persist j :: tr) = summs tr := rfl

@[simp]
theorem summs_cons_persistFail (j : Nat) (tr : List Ev) :
    summs (Ev.persistFail j :: tr) = summs tr := rfl

@[simp]
theorem summs_cons_gc (tr : List Ev) :
    summs (Ev.gc :: tr) = summs tr := rfl

@[simp]
theorem summs_cons_sleep (ms : Nat) (tr : List Ev) :
    summs (Ev.sleep ms :: tr) = summs tr := rfl

@[simp]
theorem persistFails_cons_summarize (j : Nat) (tr : List Ev) :
    persistFails (Ev.summarize j :: tr) = persistFails tr := rfl

@[simp]
theorem persistFails_cons_persist (j : Nat) (tr : List Ev) :
    persistFails (Ev.persist j :: tr) = persistFails tr := rfl

@[simp]
theorem persistFails_cons_persistFail (j : Nat) (tr : List Ev) :
    persistFails (Ev.persistFail j :: tr) = j :: persistFails tr := rfl

@[simp]
theorem persistFails_cons_gc (tr : List Ev) :
    persistFails (Ev.gc :: tr) = persistFails tr := rfl

@[simp]
theorem persistFails_cons_sleep (ms : Nat) (tr : List Ev) :
    persistFails (Ev.sleep ms :: tr) = persistFails tr := rfl

/-- Membership in a trace's persisted positions. -/
theorem mem_persists (j : Nat) (tr : List Ev) :
    j ∈ persists tr ↔ Ev.persist j ∈ tr := by
  simp only [persists, List.mem_filterMap]
  constructor
  · rintro ⟨e, he, hj⟩
    cases e <;> simp_all
  · intro h
    exact ⟨Ev.persist j, h, rfl⟩

/-- Membership in a trace's summarized positions. -/
theorem mem_summs (j : Nat) (tr : List Ev) :
    j ∈ summs tr ↔ Ev.summarize j ∈ tr := by
  simp only [summs, List.mem_filterMap]
  constructor
  · rintro ⟨e, he, hj⟩
    cases e <;> simp_all
  · intro h
    exact ⟨Ev.summarize j, h, rfl⟩

/-- Membership in a trace's failed-persist positions. -/
theorem mem_persistFails (j : Nat) (tr : List Ev) :
    j ∈ persistFails tr ↔ Ev.persistFail j ∈ tr := by
  simp only [persistFails, List.mem_filterMap]
  constructor
  · rintro ⟨e, he, hj⟩
    cases e <;> simp_all
  · intro h
    exact ⟨Ev.persistFail j, h, rfl⟩

/-- The inner item loop emits only item events (summaries, persists, failed
persists). -/
theorem itemsAux_events (ok : Nat → Bool) :
    ∀ (b : List Item) (i : Nat), ∀ e ∈ (processItemsAux ok i b).1,
      isItemEv e = true := by
  intro b
  induction b with
  | nil => intro i e he; simp [processItemsAux] at he
  | cons x rest ih =>
    intro i e he
    by_cases hok : ok i = true
    · simp only [processItemsAux, hok, if_true] at he
      rcases List.mem_cons.mp he with rfl | he
      · rfl
      · rcases List.mem_cons.mp he with rfl | he
        · rfl
        · exact ih (i + 1) e he
    · simp only [processItemsAux, Bool.not_eq_true] at hok
      simp only [processItemsAux, hok, Bool.false_eq_true, if_false] at he
      rcases List.mem_cons.mp he with rfl | he
      · rfl
      · rcases List.mem_cons.mp he with rfl | he
        · rfl
        · simp at he

/-- When every item from position `i` through the end of the batch
succeeds, the inner loop succeeds and its trace summarizes and persists
exactly positions `i, ..., i + batchLength - 1`, in order, with no
failures. -/
theorem itemsAux_ok (ok : Nat → Bool) :
    ∀ (b : List Item) (i : Nat),
      (∀ j, i ≤ j → j < i + b.length → ok j = true) →
      ∃ tr, processItemsAux ok i b = (tr, true) ∧
        persists tr = List.range' i b.length ∧
        summs tr = List.range' i b.length ∧
        persistFails tr = [] := by
  intro b
  induction b with
  | nil => intro i h; exact ⟨[], rfl, rfl, rfl, rfl⟩
  | cons x rest ih =>
    intro i h
    have hok : ok i = true := h i le_rfl (by simp only [List.length_cons]; omega)
    obtain ⟨tr, heq, hp, hs, hf⟩ :=
      ih (i + 1) (fun j hj1 hj2 => h j (by omega)
        (by simp only [List.length_cons]; omega))
    refine ⟨Ev.summarize i :: Ev.persist i :: tr, ?_, ?_, ?_, ?_⟩
    · simp [processItemsAux, hok, heq]
    · simp [hp, List.range'_succ]
    · simp [hs, List.range'_succ]
    · simp [hf]

/-- When the first failing position is `k`, inside the batch, the inner
loop fails: positions `i, ..., k-1` are summarized and persisted, position
`k` is summarized and its persist fails as the last event, and nothing
beyond `k` is touched. -/
theorem itemsAux_fail (ok : Nat → Bool) :
    ∀ (b : List Item) (i k : Nat), i ≤ k → k < i + b.length →
      (∀ j, i ≤ j → j < k → ok j = true) → ok k = false →
      ∃ tr, processItemsAux ok i b = (tr, false) ∧
        persists tr = List.range' i (k - i) ∧
        summs tr = List.range' i (k - i + 1) ∧
        persistFails tr = [k] ∧
        tr.getLast? = some (Ev.persistFail k) := by
  intro b
  induction b with
  | nil =>
    intro i k h1 h2 h3 h4
    simp only [List.length_nil, Nat.add_zero] at h2
    omega
  | cons x rest ih =>
    intro i k h1 h2 h3 h4
    rcases Nat.eq_or_lt_of_le h1 with rfl | hlt
    · refine ⟨[Ev.summarize i, Ev.persistFail i], ?_, ?_, ?_, ?_, ?_⟩
      · simp [processItemsAux, h4]
      · simp
      · simp [Nat.sub_self, List.range'_succ]
      · simp
      · simp
    · have hok : ok i = true := h3 i le_rfl hlt
      obtain ⟨tr, heq, hp, hs, hf, hl⟩ :=
        ih (i + 1) k (by omega)
          (by simp only [List.length_cons] at h2; omega)
          (fun j hj1 hj2 => h3 j (by omega) hj2) h4
      refine ⟨Ev.summarize i :: Ev.persist i :: tr, ?_, ?_, ?_, ?_, ?_⟩
      · simp [processItemsAux, hok, heq]
      · have hki : k - i = (k - (i + 1)) + 1 := by omega
        simp [hp, hki, List.range'_succ]
      · have hki : k - i + 1 = (k - (i + 1) + 1) + 1 := by omega
        simp [hs, hki, List.range'_succ]
      · simp [hf]
      · cases tr with
        | nil => simp at hl
        | cons y ys => simp [List.getLast?_cons_cons, hl]

/-- Item events are batch events. -/
theorem isBatchEv_of_isItemEv (e : Ev) (h : isItemEv e = true) :
    isBatchEv e = true := by
  cases e <;> simp [isItemEv, isBatchEv] at h ⊢

/-- The batch loop emits only batch events (item events, gc hints,
sleeps). -/
theorem go_events (ok : Nat → Bool) (items : List Item) (B : Nat) :
    ∀ (fuel i : Nat) (tr : List Ev) (r : Bool),
      processGo ok items B i fuel = some (tr, r) →
      ∀ e ∈ tr, isBatchEv e = true := by
  intro fuel
  induction fuel with
  | zero =>
    intro i tr r h e he
    by_cases hlt : i < items.length
    · simp [processGo, hlt] at h
    · simp [processGo, hlt] at h
      obtain ⟨rfl, -⟩ := h
      simp at he
  | succ fuel ih =>
    intro i tr r h e he
    by_cases hlt : i < items.length
    · simp only [processGo, hlt, if_true] at h
      rcases hb : processItemsAux ok i ((items.drop i).take B) with ⟨btr, rb⟩
      rw [hb] at h
      have hbe : ∀ x ∈ btr, isItemEv x = true := by
        intro x hx
        exact itemsAux_events ok ((items.drop i).take B) i x (by rw [hb]; exact hx)
      cases rb with
      | false =>
        simp at h
        obtain ⟨rfl, -⟩ := h
        exact isBatchEv_of_isItemEv e (hbe e he)
      | true =>
        rcases hg : processGo ok items B (i + B) fuel with _ | q
        · rw [hg] at h; cases h
        · rw [hg] at h
          simp at h
          obtain ⟨rfl, -⟩ := h
          rcases List.mem_append.mp he with hbm | hrest
          · exact isBatchEv_of_isItemEv e (hbe e hbm)
          · rcases List.mem_cons.mp hrest with rfl | hrest
            · rfl
            · rcases List.mem_cons.mp hrest with rfl | hq
              · rfl
              · exact ih (i + B) q.1 q.2 (by rw [hg]) e hq
    · simp [processGo, hlt] at h
      obtain ⟨rfl, -⟩ := h
      simp at he

/-- With positive batch size, fuel equal to the number of remaining items
always suffices for the batch loop to run to its exit condition. -/
theorem go_total (ok : Nat → Bool) (items : List Item) (B : Nat) (hB : 1 ≤ B) :
    ∀ (fuel i : Nat), items.length - i ≤ fuel →
      (processGo ok items B i fuel).isSome = true := by
  intro fuel
  induction fuel with
  | zero =>
    intro i hi
    have hge : ¬ i < items.length := by omega
    simp [processGo, hge]
  | succ fuel ih =>
    intro i hi
    by_cases hlt : i < items.length
    · simp only [processGo, hlt, if_true]
      rcases hb : processItemsAux ok i ((items.drop i).take B) with ⟨btr, rb⟩
      cases rb with
      | false => simp
      | true =>
        have hr := ih (i + B) (by omega)
        rcases hg : processGo ok items B (i + B) fuel with _ | q
        · rw [hg] at hr; simp at hr
        · simp [hg]
    · simp [processGo, hlt]

/-- Ceiling arithmetic for one completed batch: a batch of `B` items off a
remainder of `m ≥ 1` items accounts for one pause, the rest for
`⌈(m-B)/B⌉`. -/
theorem ceil_chunk_step (m B : Nat) (hB : 1 ≤ B) (hm : 1 ≤ m) :
    (m - B + B - 1) / B + 1 = (m + B - 1) / B := by
  rcases le_or_lt m B with h | h
  · have h1 : m - B + B - 1 = B - 1 := by omega
    have h2 : m + B - 1 = (m - 1) + B := by omega
    rw [h1, h2, Nat.add_div_right _ (by omega), Nat.div_eq_of_lt (by omega),
      Nat.div_eq_of_lt (by omega)]
  · have h2 : m + B - 1 = (m - B + B - 1) + B := by omega
    rw [h2, Nat.add_div_right _ (by omega)]

/-- When every remaining item succeeds, the batch loop succeeds: its trace
persists and summarizes exactly the remaining positions in order, records
no failures, and contains one gc hint and one 1000 ms pause per batch —
`⌈remaining/B⌉` of each, the pause occurring after every batch including
the final one. -/
theorem go_ok (ok : Nat → Bool) (items : List Item) (B : Nat) (hB : 1 ≤ B) :
    ∀ (fuel i : Nat), items.length - i ≤ fuel →
      (∀ j, i ≤ j → j < items.length → ok j = true) →
      ∃ tr, processGo ok items B i fuel = some (tr, true) ∧
        persists tr = List.range' i (items.length - i) ∧
        summs tr = List.range' i (items.length - i) ∧
        persistFails tr = [] ∧
        countEv Ev.gc tr = (items.length - i + B - 1) / B ∧
        countEv (Ev.sleep 1000) tr = (items.length - i + B - 1) / B := by
  intro fuel
  induction fuel with
  | zero =>
    intro i hfuel hok
    have hge : ¬ i < items.length := by omega
    have hz : items.length - i = 0 := by omega
    have hv : (items.length - i + B - 1) / B = 0 := by
      have h1 : items.length - i + B - 1 = B - 1 := by omega
      rw [h1]
      exact Nat.div_eq_of_lt (by omega)
    refine ⟨[], by simp [processGo, hge], by simp [hz], by simp [hz], by simp,
      by simp [hv], by simp [hv]⟩
  | succ fuel ih =>
    intro i hfuel hok
    by_cases hlt : i < items.length
    · have hblen : ((items.drop i).take B).length = min B (items.length - i) := by
        simp [List.length_take, List.length_drop]
      obtain ⟨btr, hbeq, hbp, hbs, hbf⟩ :=
        itemsAux_ok ok ((items.drop i).take B) i
          (fun j hj1 hj2 => hok j hj1 (by rw [hblen] at hj2; omega))
      obtain ⟨tr2, hgeq, hp2, hs2, hf2, hg2, hsl2⟩ :=
        ih (i + B) (by omega) (fun j hj1 hj2 => hok j (by omega) hj2)
      have hsub : items.length - (i + B) = items.length - i - B := by omega
      have hgcb : countEv Ev.gc btr = 0 := by
        refine countEv_eq_zero _ _ (fun hm => ?_)
        have h := itemsAux_events ok ((items.drop i).take B) i Ev.gc
          (by rw [hbeq]; exact hm)
        simp [isItemEv] at h
      have hslb : countEv (Ev.sleep 1000) btr = 0 := by
        refine countEv_eq_zero _ _ (fun hm => ?_)
        have h := itemsAux_events ok ((items.drop i).take B) i (Ev.sleep 1000)
          (by rw [hbeq]; exact hm)
        simp [isItemEv] at h
      have hrange : List.range' i (min B (items.length - i))
          ++ List.range' (i + B) (items.length - i - B)
          = List.range' i (items.length - i) := by
        rcases le_or_lt (items.length - i) B with hle | hgt
        · have h1 : min B (items.length - i) = items.length - i := by omega
          have h2 : items.length - i - B = 0 := by omega
          rw [h1, h2]
          simp
        · have h1 : min B (items.length - i) = B := by omega
          have h2 : items.length - i - B + B = items.length - i := by omega
          rw [h1, List.range'_append_1, h2]
      refine ⟨btr ++ Ev.gc :: Ev.sleep 1000 :: tr2, ?_, ?_, ?_, ?_, ?_, ?_⟩
      · simp only [processGo, hlt, if_true]
        rw [hbeq, hgeq]
      · rw [persists_append, hbp, hblen]
        simp only [persists_cons_gc, persists_cons_sleep]
        rw [hp2, hsub, hrange]
      · rw [summs_append, hbs, hblen]
        simp only [summs_cons_gc, summs_cons_sleep]
        rw [hs2, hsub, hrange]
      · rw [persistFails_append, hbf]
        simp only [persistFails_cons_gc, persistFails_cons_sleep]
        rw [hf2]
        rfl
      · rw [countEv_append, hgcb, countEv_cons, countEv_cons, hg2, hsub]
        have h1 : (if Ev.gc = Ev.gc then (1:Nat) else 0) = 1 := if_pos rfl
        have h2 : (if Ev.sleep 1000 = Ev.gc then (1:Nat) else 0) = 0 :=
          if_neg (by simp)
        rw [h1, h2]
        have hcs := ceil_chunk_step (items.length - i) B hB (by omega)
        omega
      · rw [countEv_append, hslb, countEv_cons, countEv_cons, hsl2, hsub]
        have h1 : (if Ev.sleep 1000 = Ev.sleep 1000 then (1:Nat) else 0) = 1 :=
          if_pos rfl
        have h2 : (if Ev.gc = Ev.sleep 1000 then (1:Nat) else 0) = 0 :=
          if_neg (by simp)
        rw [h1, h2]
        have hcs := ceil_chunk_step (items.length - i) B hB (by omega)
        omega
    · have hz : items.length - i = 0 := by omega
      have hv : (items.length - i + B - 1) / B = 0 := by
        have h1 : items.length - i + B - 1 = B - 1 := by omega
        rw [h1]
        exact Nat.div_eq_of_lt (by omega)
      refine ⟨[], by simp [processGo, hlt], by simp [hz], by simp [hz], by simp,
        by simp [hv], by simp [hv]⟩

/-- When the first failing position is `k`, the batch loop fails: positions
before `k` are persisted in order, positions through `k` are summarized,
the only failed persist is `k` and it is the final event of the trace (so
no gc hint or pause follows the failing batch), and the completed batches
before the failure account for `⌊(k-i)/B⌋` gc hints and pauses each. -/
theorem go_fail (ok : Nat → Bool) (items : List Item) (B : Nat) (hB : 1 ≤ B)
    (k : Nat) (hk : k < items.length) (hfail : ok k = false) :
    ∀ (fuel i : Nat), items.length - i ≤ fuel → i ≤ k →
      (∀ j, i ≤ j → j < k → ok j = true) →
      ∃ tr, processGo ok items B i fuel = some (tr, false) ∧
        persists tr = List.range' i (k - i) ∧
        summs tr = List.range' i (k - i + 1) ∧
        persistFails tr = [k] ∧
        tr.getLast? = some (Ev.persistFail k) ∧
        countEv Ev.gc tr = (k - i) / B ∧
        countEv (Ev.sleep 1000) tr = (k - i) / B := by
  intro fuel
  induction fuel with
  | zero => intro i h1 h2 h3; omega
  | succ fuel ih =>
    intro i hfuel hik hpre
    have hlt : i < items.length := by omega
    have hblen : ((items.drop i).take B).length = min B (items.length - i) := by
      simp [List.length_take, List.length_drop]
    rcases lt_or_ge k (i + min B (items.length - i)) with hin | hout
    · obtain ⟨btr, hbeq, hbp, hbs, hbf, hbl⟩ :=
        itemsAux_fail ok ((items.drop i).take B) i k hik
          (by rw [hblen]; omega) hpre hfail
      have h0gc : countEv Ev.gc btr = 0 := by
        refine countEv_eq_zero _ _ (fun hm => ?_)
        have h := itemsAux_events ok ((items.drop i).take B) i Ev.gc
          (by rw [hbeq]; exact hm)
        simp [isItemEv] at h
      have h0sl : countEv (Ev.sleep 1000) btr = 0 := by
        refine countEv_eq_zero _ _ (fun hm => ?_)
        have h := itemsAux_events ok ((items.drop i).take B) i (Ev.sleep 1000)
          (by rw [hbeq]; exact hm)
        simp [isItemEv] at h
      have hdiv : (k - i) / B = 0 := Nat.div_eq_of_lt (by omega)
      refine ⟨btr, ?_, hbp, hbs, hbf, hbl, ?_, ?_⟩
      · simp only [processGo, hlt, if_true]
        rw [hbeq]
      · omega
      · omega
    · have hminB : min B (items.length - i) = B := by omega
      have hkB : i + B ≤ k := by omega
      obtain ⟨btr, hbeq, hbp, hbs, hbf⟩ :=
        itemsAux_ok ok ((items.drop i).take B) i
          (fun j hj1 hj2 => hpre j hj1 (by rw [hblen, hminB] at hj2; omega))
      obtain ⟨tr2, hgeq, hp2, hs2, hf2, hl2, hg2, hsl2⟩ :=
        ih (i + B) (by omega) (by omega)
          (fun j hj1 hj2 => hpre j (by omega) hj2)
      have h0gc : countEv Ev.gc btr = 0 := by
        refine countEv_eq_zero _ _ (fun hm => ?_)
        have h := itemsAux_events ok ((items.drop i).take B) i Ev.gc
          (by rw [hbeq]; exact hm)
        simp [isItemEv] at h
      have h0sl : countEv (Ev.sleep 1000) btr = 0 := by
        refine countEv_eq_zero _ _ (fun hm => ?_)
        have h := itemsAux_events ok ((items.drop i).take B) i (Ev.sleep 1000)
          (by rw [hbeq]; exact hm)
        simp [isItemEv] at h
      refine ⟨btr ++ Ev.gc :: Ev.sleep 1000 :: tr2, ?_, ?_, ?_, ?_, ?_, ?_, ?_⟩
      · simp only [processGo, hlt, if_true]
        rw [hbeq, hgeq]
      · rw [persists_append, hbp, hblen, hminB]
        simp only [persists_cons_gc, persists_cons_sleep]
        rw [hp2, List.range'_append_1]
        have hh : k - (i + B) + B = k - i := by omega
        rw [hh]
      · rw [summs_append, hbs, hblen, hminB]
        simp only [summs_cons_gc, summs_cons_sleep]
        rw [hs2, List.range'_append_1]
        have hh : k - (i + B) + 1 + B = k - i + 1 := by omega
        rw [hh]
      · rw [persistFails_append, hbf]
        simp only [persistFails_cons_gc, persistFails_cons_sleep]
        rw [hf2]
        rfl
      · rw [List.getLast?_append_of_ne_nil _ (by simp)]
        cases tr2 with
        | nil => simp at hl2
        | cons y ys => simp [List.getLast?_cons_cons, hl2]
      · rw [countEv_append, h0gc, countEv_cons, countEv_cons, hg2]
        have h1 : (if Ev.gc = Ev.gc then (1:Nat) else 0) = 1 := if_pos rfl
        have h2 : (if Ev.sleep 1000 = Ev.gc then (1:Nat) else 0) = 0 :=
          if_neg (by simp)
        rw [h1, h2]
        have hdiv : (k - i) / B = (k - (i + B)) / B + 1 := by
          have hh : k - i = (k - (i + B)) + B := by omega
          rw [hh, Nat.add_div_right _ (by omega)]
        omega
      · rw [countEv_append, h0sl, countEv_cons, countEv_cons, hsl2]
        have h1 : (if Ev.sleep 1000 = Ev.sleep 1000 then (1:Nat) else 0) = 1 :=
          if_pos rfl
        have h2 : (if Ev.gc = Ev.sleep 1000 then (1:Nat) else 0) = 0 :=
          if_neg (by simp)
        rw [h1, h2]
        have hdiv : (k - i) / B = (k - (i + B)) / B + 1 := by
          have hh : k - i = (k - (i + B)) + B := by omega
          rw [hh, Nat.add_div_right _ (by omega)]
        omega

/-- C4 counterexample: a run in which the only item's embed-and-persist
call fails produces a trace with no memory-reclamation hint and no pause at
all — the thrown failure skips `forceGC()` and the 1000 ms delay, so the
pause is not independent of batch outcome as the claim states. -/
theorem c4_counterexample :
    processGo (fun _ => false) [demoItem] 3 0 (List.length [demoItem])
      = some ([Ev.summarize 0, Ev.persistFail 0], false) ∧
    Ev.gc ∉ [Ev.summarize 0, Ev.persistFail 0] ∧
    Ev.sleep 1000 ∉ [Ev.summarize 0, Ev.persistFail 0] := by
  refine ⟨rfl, by decide, by decide⟩

/-- C4 (amended): after every batch whose items all succeed, the pipeline
requests memory reclamation and then pauses 1000 ms — one gc hint and one
pause per batch, `⌈L/B⌉` in a fully successful run, including after the
final batch; but when an item fails, the run aborts at the failed persist
(it is the last event of the trace), with only the `⌊k/B⌋` completed
batches having been followed by a gc hint and pause. -/
theorem c4_gc_pause_per_batch (ok : Nat → Bool) (items : List Item)
    (B k : Nat) (hB : 1 ≤ B) :
    ((∀ j, j < items.length → ok j = true) →
      ∃ tr, processGo ok items B 0 items.length = some (tr, true) ∧
        countEv Ev.gc tr = (items.length + B - 1) / B ∧
        countEv (Ev.sleep 1000) tr = (items.length + B - 1) / B) ∧
    (k < items.length → (∀ j, j < k → ok j = true) → ok k = false →
      ∃ tr, processGo ok items B 0 items.length = some (tr, false) ∧
        countEv Ev.gc tr = k / B ∧
        countEv (Ev.sleep 1000) tr = k / B ∧
        tr.getLast? = some (Ev.persistFail k)) := by
  constructor
  · intro hall
    obtain ⟨tr, heq, -, -, -, hg, hsl⟩ :=
      go_ok ok items B hB items.length 0 (by omega)
        (fun j hj1 hj2 => hall j hj2)
    rw [Nat.sub_zero] at hg hsl
    exact ⟨tr, heq, hg, hsl⟩
  · intro hk hpre hfail
    obtain ⟨tr, heq, -, -, -, hlast, hg, hsl⟩ :=
      go_fail ok items B hB k hk hfail items.length 0 (by omega) (by omega)
        (fun j hj1 hj2 => hpre j hj2)
    rw [Nat.sub_zero] at hg hsl
    exact ⟨tr, heq, hg, hsl, hlast⟩

/-- C4 amended-claim witness: two items, batch size 1, second item fails:
the run fails with one gc hint and one pause (after the first, completed,
batch) and ends at the failed persist. -/
theorem c4_witness :
    ∃ tr, processGo (fun j => j == 0) [demoItem, demoItem2] 1 0
        (List.length [demoItem, demoItem2]) = some (tr, false) ∧
      countEv Ev.gc tr = 1 / 1 ∧
      countEv (Ev.sleep 1000) tr = 1 / 1 ∧
      tr.getLast? = some (Ev.persistFail 1) :=
  (c4_gc_pause_per_batch (fun j => j == 0) [demoItem, demoItem2] 1 1
    (by omega)).2 (by decide) (by decide) (by decide)

/-- The index-provisioning step produces one of exactly three traces,
depending on which of its two store calls fails. -/
theorem idx_cases (env : Env) :
    createVectorSearchIndex env = [Ev.dropIdx, Ev.createIdx] ∨
    createVectorSearchIndex env = [Ev.dropIdx, Ev.logIndexError] ∨
    createVectorSearchIndex env = [Ev.logIndexError] := by
  unfold createVectorSearchIndex
  by_cases h1 : env.indexDropOk <;> by_cases h2 : env.indexCreateOk <;>
    simp [h1, h2]

/-- Any event of the index-provisioning step is an index event. -/
theorem mem_idx_cases (env : Env) (e : Ev)
    (h : e ∈ createVectorSearchIndex env) :
    e = Ev.dropIdx ∨ e = Ev.createIdx ∨ e = Ev.logIndexError := by
  rcases idx_cases env with hh | hh | hh <;> rw [hh] at h <;> simp at h <;>
    tauto

/-- The run never closes the connection inside index provisioning. -/
theorem close_not_idx (env : Env) : Ev.close ∉ createVectorSearchIndex env := by
  intro hm
  have h := mem_idx_cases env Ev.close hm
  simp at h

/-- No top-level failure log inside index provisioning. -/
theorem logError_not_idx (env : Env) :
    Ev.logError ∉ createVectorSearchIndex env := by
  intro hm
  have h := mem_idx_cases env Ev.logError hm
  simp at h

/-- No completion log inside index provisioning. -/
theorem logDone_not_idx (env : Env) :
    Ev.logDone ∉ createVectorSearchIndex env := by
  intro hm
  have h := mem_idx_cases env Ev.logDone hm
  simp at h

/-- No clear inside index provisioning. -/
theorem clear_not_idx (env : Env) : Ev.clear ∉ createVectorSearchIndex env := by
  intro hm
  have h := mem_idx_cases env Ev.clear hm
  simp at h

/-- No generation attempt inside index provisioning. -/
theorem generate_not_idx (env : Env) :
    Ev.generate ∉ createVectorSearchIndex env := by
  intro hm
  have h := mem_idx_cases env Ev.generate hm
  simp at h

/-- No failed generation attempt inside index provisioning. -/
theorem generateFail_not_idx (env : Env) :
    Ev.generateFail ∉ createVectorSearchIndex env := by
  intro hm
  have h := mem_idx_cases env Ev.generateFail hm
  simp at h

/-- Index provisioning persists nothing. -/
theorem persists_idx (env : Env) : persists (createVectorSearchIndex env) = [] := by
  rcases idx_cases env with h | h | h <;> rw [h] <;> rfl

/-- Index provisioning summarizes nothing. -/
theorem summs_idx (env : Env) : summs (createVectorSearchIndex env) = [] := by
  rcases idx_cases env with h | h | h <;> rw [h] <;> rfl

/-- Index provisioning fails no persist. -/
theorem persistFails_idx (env : Env) :
    persistFails (createVectorSearchIndex env) = [] := by
  rcases idx_cases env with h | h | h <;> rw [h] <;> rfl

/-- Index provisioning does not touch the stored documents. -/
theorem runStore_idx (env : Env) (d : List Nat) :
    runStore d (createVectorSearchIndex env) = d := by
  rcases idx_cases env with h | h | h <;> rw [h] <;> rfl

/-- `runStore` distributes over trace concatenation. -/
theorem runStore_append (d : List Nat) (a b : List Ev) :
    runStore d (a ++ b) = runStore (runStore d a) b := by
  simp [runStore, List.foldl_append]

/-- A trace of batch events only reads and appends: the store after it is
the store before it extended by its persisted positions, in order. -/
theorem runStore_no_clear :
    ∀ (tr : List Ev), (∀ e ∈ tr, isBatchEv e = true) →
      ∀ d, runStore d tr = d ++ persists tr := by
  intro tr
  induction tr with
  | nil => intro h d; simp [runStore]
  | cons e rest ih =>
    intro h d
    have he := h e (List.mem_cons_self _ _)
    have hrest := fun x hx => h x (List.mem_cons_of_mem _ hx)
    have hstep : runStore d (e :: rest) = runStore (storeStep d e) rest := rfl
    cases e
    case summarize j =>
      rw [hstep, show storeStep d (Ev.summarize j) = d from rfl, ih hrest d,
        persists_cons_summarize]
    case persist j =>
      rw [hstep, show storeStep d (Ev.persist j) = d ++ [j] from rfl,
        ih hrest (d ++ [j]), persists_cons_persist, List.append_assoc]
      rfl
    case persistFail j =>
      rw [hstep, show storeStep d (Ev.persistFail j) = d from rfl, ih hrest d,
        persists_cons_persistFail]
    case gc =>
      rw [hstep, show storeStep d Ev.gc = d from rfl, ih hrest d,
        persists_cons_gc]
    case sleep ms =>
      rw [hstep, show storeStep d (Ev.sleep ms) = d from rfl, ih hrest d,
        persists_cons_sleep]
    all_goals simp [isBatchEv] at he

/-- Shape of the try-block trace for a run that reaches item processing:
connect, ping, setup, index provisioning, clear, generation, then the
batch-loop trace and on success the completion log. -/
theorem seedBody_run (env : Env) (items : List Item) (ptr : List Ev) (r : Bool)
    (hc : env.connectOk = true) (hp : env.pingOk = true)
    (hs : env.setupOk = true) (hcl : env.clearOk = true)
    (hl : env.llmOk = true)
    (hv : validateItemArray env.genResponse = Except.ok items)
    (hgo : processGo env.persistOk items 3 0 items.length = some (ptr, r)) :
    seedTryBody env = ([Ev.connect, Ev.ping, Ev.setup]
      ++ createVectorSearchIndex env ++ [Ev.clear, Ev.generate] ++ ptr
      ++ (if r then [Ev.logDone] else []), r) := by
  unfold seedTryBody
  rw [hv]
  simp [hc, hp, hs, hcl, hl, hgo]

/-- Shape of the whole run trace for a run that reaches item processing:
the try-block trace, the failure log when the batch loop failed, and the
final connection close. -/
theorem seed_run (env : Env) (items : List Item) (ptr : List Ev) (r : Bool)
    (hc : env.connectOk = true) (hp : env.pingOk = true)
    (hs : env.setupOk = true) (hcl : env.clearOk = true)
    (hl : env.llmOk = true)
    (hv : validateItemArray env.genResponse = Except.ok items)
    (hgo : processGo env.persistOk items 3 0 items.length = some (ptr, r)) :
    seedDatabase env = [Ev.connect, Ev.ping, Ev.setup]
      ++ createVectorSearchIndex env ++ [Ev.clear, Ev.generate] ++ ptr
      ++ (if r then [Ev.logDone, Ev.close] else [Ev.logError, Ev.close]) := by
  unfold seedDatabase
  rw [seedBody_run env items ptr r hc hp hs hcl hl hv hgo]
  cases r
  · simp
  · simp

/-- C2: if the embed-and-persist step for the item at position `k` fails
(all earlier items succeeding), then: whatever the collection held before,
after the run it holds exactly the items at positions `0..k-1` — every
record before the `k`-th was persisted and remains persisted, commits being
per item; a record is persisted iff it precedes position `k`; no record
after the `k`-th is summarized (hence neither embedded nor persisted — the
only failed embed-persist attempt is `k` itself); and the run terminates
reporting failure (the error is logged, the completion message is not). -/
theorem c2_failure_propagation (env : Env) (items : List Item) (k : Nat)
    (hc : env.connectOk = true) (hp : env.pingOk = true)
    (hs : env.setupOk = true) (hcl : env.clearOk = true)
    (hl : env.llmOk = true)
    (hv : validateItemArray env.genResponse = Except.ok items)
    (hk : k < items.length)
    (hpre : ∀ j, j < k → env.persistOk j = true)
    (hfail : env.persistOk k = false) :
    (∀ init, runStore init (seedDatabase env) = List.range k) ∧
    (∀ j, Ev.persist j ∈ seedDatabase env ↔ j < k) ∧
    (∀ j, k < j → Ev.summarize j ∉ seedDatabase env) ∧
    (∀ j, Ev.persistFail j ∈ seedDatabase env ↔ j = k) ∧
    Ev.logError ∈ seedDatabase env ∧ Ev.logDone ∉ seedDatabase env := by
  obtain ⟨ptr, hgo, hpp, hss, hff, hlast, -, -⟩ :=
    go_fail env.persistOk items 3 (by omega) k hk hfail items.length 0
      (by omega) (by omega) (fun j hj1 hj2 => hpre j hj2)
  rw [Nat.sub_zero] at hpp hss
  have hev : ∀ e ∈ ptr, isBatchEv e = true :=
    go_events env.persistOk items 3 items.length 0 ptr false hgo
  have htr := seed_run env items ptr false hc hp hs hcl hl hv hgo
  rw [show (if (false : Bool) then [Ev.logDone, Ev.close]
    else [Ev.logError, Ev.close]) = [Ev.logError, Ev.close] from rfl] at htr
  have hfull : persists (seedDatabase env) = List.range' 0 k := by
    rw [htr]
    simp only [persists_append, persists_idx,
      show persists [Ev.connect, Ev.ping, Ev.setup] = [] from rfl,
      show persists [Ev.clear, Ev.generate] = [] from rfl,
      show persists [Ev.logError, Ev.close] = [] from rfl, hpp]
    simp
  have hsfull : summs (seedDatabase env) = List.range' 0 (k + 1) := by
    rw [htr]
    simp only [summs_append, summs_idx,
      show summs [Ev.connect, Ev.ping, Ev.setup] = [] from rfl,
      show summs [Ev.clear, Ev.generate] = [] from rfl,
      show summs [Ev.logError, Ev.close] = [] from rfl, hss]
    simp
  have hffull : persistFails (seedDatabase env) = [k] := by
    rw [htr]
    simp only [persistFails_append, persistFails_idx,
      show persistFails [Ev.connect, Ev.ping, Ev.setup] = [] from rfl,
      show persistFails [Ev.clear, Ev.generate] = [] from rfl,
      show persistFails [Ev.logError, Ev.close] = [] from rfl, hff]
    simp
  refine ⟨?_, ?_, ?_, ?_, ?_, ?_⟩
  · intro init
    rw [htr, runStore_append, runStore_append, runStore_append,
      runStore_append,
      show ∀ d : List Nat, runStore d [Ev.connect, Ev.ping, Ev.setup] = d
        from fun _ => rfl,
      runStore_idx,
      show ∀ d : List Nat, runStore d [Ev.clear, Ev.generate] = []
        from fun _ => rfl,
      runStore_no_clear ptr hev [], List.nil_append, hpp,
      show ∀ d : List Nat, runStore d [Ev.logError, Ev.close] = d
        from fun _ => rfl,
      List.range_eq_range']
  · intro j
    rw [← mem_persists, hfull, List.mem_range'_1]
    omega
  · intro j hj
    rw [← mem_summs, hsfull, List.mem_range'_1]
    omega
  · intro j
    rw [← mem_persistFails, hffull]
    simp
  · rw [htr]
    simp
  · rw [htr]
    have hnd : Ev.logDone ∉ ptr := by
      intro hm
      have h := hev Ev.logDone hm
      simp [isBatchEv] at h
    have hni := logDone_not_idx env
    simp [List.mem_append, hni, hnd]

/-- C2 witness: two records, the second's embed-and-persist fails: the
collection ends holding exactly record 0, record 1 is summarized but not
persisted, nothing beyond record 1 is touched, and the run logs the error
instead of the completion message. -/
theorem c2_witness :
    (∀ init, runStore init (seedDatabase demoEnvFail) = List.range 1) ∧
    (∀ j, Ev.persist j ∈ seedDatabase demoEnvFail ↔ j < 1) ∧
    (∀ j, 1 < j → Ev.summarize j ∉ seedDatabase demoEnvFail) ∧
    (∀ j, Ev.persistFail j ∈ seedDatabase demoEnvFail ↔ j = 1) ∧
    Ev.logError ∈ seedDatabase demoEnvFail ∧
    Ev.logDone ∉ seedDatabase demoEnvFail :=
  c2_failure_propagation demoEnvFail [demoItem, demoItem2] 1 rfl rfl rfl rfl
    rfl (by rfl) (by decide) (by decide) (by decide)

/-- Any run whose connect, ping, setup and clear steps succeed reaches the
clear: its trace is the setup prefix, then the index provisioning events,
then the clear, then the rest of the run. -/
theorem seed_reach_clear (env : Env) (hc : env.connectOk = true)
    (hp : env.pingOk = true) (hs : env.setupOk = true)
    (hcl : env.clearOk = true) :
    ∃ tail, seedDatabase env = [Ev.connect, Ev.ping, Ev.setup]
      ++ createVectorSearchIndex env ++ Ev.clear :: tail := by
  unfold seedDatabase seedTryBody
  by_cases h5 : env.llmOk
  · rcases hv : validateItemArray env.genResponse with e | items
    · refine ⟨[Ev.generateFail, Ev.logError, Ev.close], ?_⟩
      simp [hc, hp, hs, hcl, h5, hv]
    · rcases hgo : processGo env.persistOk items 3 0 items.length with _ | pr
      · refine ⟨[Ev.generate, Ev.logError, Ev.close], ?_⟩
        simp [hc, hp, hs, hcl, h5, hv, hgo]
      · rcases pr with ⟨ptr, r⟩
        cases r
        · refine ⟨Ev.generate :: (ptr ++ [Ev.logError, Ev.close]), ?_⟩
          simp [hc, hp, hs, hcl, h5, hv, hgo]
        · refine ⟨Ev.generate :: (ptr ++ [Ev.logDone, Ev.close]), ?_⟩
          simp [hc, hp, hs, hcl, h5, hv, hgo]
  · refine ⟨[Ev.generateFail, Ev.logError, Ev.close], ?_⟩
    simp [hc, hp, hs, hcl, h5]

/-- C5 counterexample: in an all-successful concrete run, clear and the
generation attempt each occur exactly once, and the clear occurs strictly
before the generation attempt — so the Generate step is not executed
before the Clear step, contradicting the claim. -/
theorem c5_counterexample :
    countEv Ev.clear (seedDatabase demoEnv) = 1 ∧
    countEv Ev.generate (seedDatabase demoEnv) = 1 ∧
    List.indexOf Ev.clear (seedDatabase demoEnv)
      < List.indexOf Ev.generate (seedDatabase demoEnv) ∧
    ¬ List.indexOf Ev.generate (seedDatabase demoEnv)
      < List.indexOf Ev.clear (seedDatabase demoEnv) := by
  decide

/-- C5 (amended): the order is the reverse of the claim — in every run that
attempts generation at all (successfully or not), the clear of the target
collection has already executed: the trace splits as a prefix containing no
generation attempt and no clear, then the clear, then the rest. -/
theorem c5_clear_before_generate (env : Env)
    (h : Ev.generate ∈ seedDatabase env ∨ Ev.generateFail ∈ seedDatabase env) :
    ∃ pre post, seedDatabase env = pre ++ Ev.clear :: post ∧
      Ev.generate ∉ pre ∧ Ev.generateFail ∉ pre ∧ Ev.clear ∉ pre := by
  by_cases h1 : env.connectOk
  · by_cases h2 : env.pingOk
    · by_cases h3 : env.setupOk
      · by_cases h4 : env.clearOk
        · obtain ⟨tail, htr⟩ := seed_reach_clear env h1 h2 h3 h4
          refine ⟨[Ev.connect, Ev.ping, Ev.setup]
            ++ createVectorSearchIndex env, tail, htr, ?_, ?_, ?_⟩
          · simp [generate_not_idx env]
          · simp [generateFail_not_idx env]
          · simp [clear_not_idx env]
        · exfalso
          have htr : seedDatabase env = ([Ev.connect, Ev.ping, Ev.setup]
              ++ createVectorSearchIndex env ++ [Ev.clearFail])
              ++ [Ev.logError] ++ [Ev.close] := by
            unfold seedDatabase seedTryBody
            simp [h1, h2, h3, h4]
          rw [htr] at h
          simp [generate_not_idx env, generateFail_not_idx env] at h
      · exfalso
        have htr : seedDatabase env
            = [Ev.connect, Ev.ping, Ev.setupFail, Ev.logError, Ev.close] := by
          unfold seedDatabase seedTryBody
          simp [h1, h2, h3]
        rw [htr] at h
        simp at h
    · exfalso
      have htr : seedDatabase env
          = [Ev.connect, Ev.pingFail, Ev.logError, Ev.close] := by
        unfold seedDatabase seedTryBody
        simp [h1, h2]
      rw [htr] at h
      simp at h
  · exfalso
    have htr : seedDatabase env = [Ev.connectFail, Ev.logError, Ev.close] := by
      unfold seedDatabase seedTryBody
      simp [h1]
    rw [htr] at h
    simp at h

/-- C5 amended-claim witness: the all-successful concrete run attempts
generation, so its trace splits at the clear as described. -/
theorem c5_witness :
    ∃ pre post, seedDatabase demoEnv = pre ++ Ev.clear :: post ∧
      Ev.generate ∉ pre ∧ Ev.generateFail ∉ pre ∧ Ev.clear ∉ pre :=
  c5_clear_before_generate demoEnv (Or.inl (by decide))

/-- When either store call of index provisioning fails, the caught failure
is logged inside the step. -/
theorem logIndexError_in_idx (env : Env)
    (hidx : env.indexDropOk = false ∨ env.indexCreateOk = false) :
    Ev.logIndexError ∈ createVectorSearchIndex env := by
  unfold createVectorSearchIndex
  rcases hidx with h | h
  · simp [h]
  · by_cases h1 : env.indexDropOk <;> simp [h, h1]

/-- C8: if creating the vector search index fails (either of its two store
calls), the failure is logged inside the provisioning step and the run is
not aborted: the pipeline still clears the collection, and — whenever
generation yields a nonempty record list — still begins ingesting it (the
first record is summarized). -/
theorem c8_index_failure_nonfatal (env : Env)
    (hc : env.connectOk = true) (hp : env.pingOk = true)
    (hs : env.setupOk = true)
    (hidx : env.indexDropOk = false ∨ env.indexCreateOk = false)
    (hcl : env.clearOk = true) :
    Ev.logIndexError ∈ seedDatabase env ∧
    Ev.clear ∈ seedDatabase env ∧
    (env.llmOk = true →
      ∀ items, validateItemArray env.genResponse = Except.ok items →
        0 < items.length → Ev.summarize 0 ∈ seedDatabase env) := by
  obtain ⟨tail, htr⟩ := seed_reach_clear env hc hp hs hcl
  refine ⟨?_, ?_, ?_⟩
  · rw [htr]
    simp [logIndexError_in_idx env hidx]
  · rw [htr]
    simp
  · intro h5 items hv hlen
    by_cases hall : ∀ j, j < items.length → env.persistOk j = true
    · obtain ⟨ptr, hgo, -, hsum, -, -, -⟩ :=
        go_ok env.persistOk items 3 (by omega) items.length 0 (by omega)
          (fun j hj1 hj2 => hall j hj2)
      rw [Nat.sub_zero] at hsum
      have htr2 := seed_run env items ptr true hc hp hs hcl h5 hv hgo
      rw [htr2]
      have h0 : Ev.summarize 0 ∈ ptr := by
        rw [← mem_summs, hsum, List.mem_range'_1]
        omega
      simp [h0]
    · push_neg at hall
      have hex : ∃ k, env.persistOk k = false ∧ k < items.length := by
        obtain ⟨j, hj1, hj2⟩ := hall
        exact ⟨j, by simpa using hj2, hj1⟩
      obtain ⟨ptr, hgo, -, hsum, -, -, -, -⟩ :=
        go_fail env.persistOk items 3 (by omega) (Nat.find hex)
          (Nat.find_spec hex).2 (Nat.find_spec hex).1 items.length 0
          (by omega) (by omega)
          (fun j hj0 hjk => by
            cases hpj : env.persistOk j
            · exact absurd ⟨hpj, by
                have := (Nat.find_spec hex).2
                omega⟩ (Nat.find_min hex hjk)
            · rfl)
      rw [Nat.sub_zero] at hsum
      have htr2 := seed_run env items ptr false hc hp hs hcl h5 hv hgo
      rw [htr2]
      have h0 : Ev.summarize 0 ∈ ptr := by
        rw [← mem_summs, hsum, List.mem_range'_1]
        omega
      simp [h0]

/-- C8 witness: a concrete run whose `createSearchIndex` call fails still
logs the index error, clears the collection, and summarizes its first
record. -/
theorem c8_witness :
    Ev.logIndexError ∈ seedDatabase demoEnvIdx ∧
    Ev.clear ∈ seedDatabase demoEnvIdx ∧
    Ev.summarize 0 ∈ seedDatabase demoEnvIdx :=
  ⟨(c8_index_failure_nonfatal demoEnvIdx rfl rfl rfl (Or.inr rfl) rfl).1,
    (c8_index_failure_nonfatal demoEnvIdx rfl rfl rfl (Or.inr rfl) rfl).2.1,
    (c8_index_failure_nonfatal demoEnvIdx rfl rfl rfl (Or.inr rfl) rfl).2.2
      rfl [demoItem] (by rfl) (by decide)⟩

/-- The try-block never emits the close or top-level error-log events, and
when it runs to completion it has logged the completion message. -/
theorem seedBody_facts (env : Env) :
    Ev.close ∉ (seedTryBody env).1 ∧ Ev.logError ∉ (seedTryBody env).1 ∧
    ((seedTryBody env).2 = true → Ev.logDone ∈ (seedTryBody env).1) := by
  have hci := close_not_idx env
  have hei := logError_not_idx env
  unfold seedTryBody
  by_cases h1 : env.connectOk <;> by_cases h2 : env.pingOk <;>
    by_cases h3 : env.setupOk <;> by_cases h4 : env.clearOk <;>
    by_cases h5 : env.llmOk <;>
    simp [h1, h2, h3, h4, h5, hci, hei]
  rcases hv : validateItemArray env.genResponse with e | items <;>
    simp [hv, hci, hei]
  rcases hgo : processGo env.persistOk items 3 0 items.length
    with _ | ⟨ptr, r⟩ <;> simp [hgo, hci, hei]
  have hcp : Ev.close ∉ ptr := by
    intro hm
    have h := go_events env.persistOk items 3 items.length 0 ptr r hgo
      Ev.close hm
    simp [isBatchEv] at h
  have hep : Ev.logError ∉ ptr := by
    intro hm
    have h := go_events env.persistOk items 3 items.length 0 ptr r hgo
      Ev.logError hm
    simp [isBatchEv] at h
  cases r <;> simp [hcp, hep]

/-- C9: every run closes the connection exactly once, via the
finally-block — whatever combination of steps fails; when the try-block
fails the error is logged (and not re-raised: `seedDatabase` always
produces a complete trace ending in the close), and when it succeeds no
error is logged and the completion message is logged. -/
theorem c9_cleanup (env : Env) :
    countEv Ev.close (seedDatabase env) = 1 ∧
    ((seedTryBody env).2 = false → Ev.logError ∈ seedDatabase env) ∧
    ((seedTryBody env).2 = true →
      Ev.logError ∉ seedDatabase env ∧ Ev.logDone ∈ seedDatabase env) := by
  obtain ⟨hcb, heb, hdb⟩ := seedBody_facts env
  unfold seedDatabase
  refine ⟨?_, ?_, ?_⟩
  · rw [countEv_append, countEv_append, countEv_eq_zero _ _ hcb]
    cases hb2 : (seedTryBody env).2 <;> simp [hb2, countEv_cons, countEv_nil]
  · intro hb2
    simp [hb2]
  · intro hb2
    constructor
    · simp [hb2, heb]
    · simp [hb2, hdb hb2]

/-- C9 witness: the all-successful concrete run closes the connection
exactly once, logs no error, and logs completion. -/
theorem c9_witness :
    countEv Ev.close (seedDatabase demoEnv) = 1 ∧
    (Ev.logError ∉ seedDatabase demoEnv ∧ Ev.logDone ∈ seedDatabase demoEnv) :=
  ⟨(c9_cleanup demoEnv).1, (c9_cleanup demoEnv).2.2 (by decide)⟩
